import Mathlib

set_option autoImplicit false

/-!
Shallow embedding of the HTTP facade of `src/techsupport_bot/base/data.py`
(`DataBot.http_call` and `DataBot.process_http_response`) and of the plugin
loader of `src/basement_bot/plugin.py` (`PluginLoader.load_plugins`).

Timestamps (`time.time()`) are modelled as integers (clock ticks at an
arbitrary granularity): the code only compares, subtracts and clamps times,
so every statement below is uniform in the tick length.  Python dictionaries
(`url_rate_limit_history`, `munch.Munch`) are modelled as association lists in
insertion order: assignment to an existing key replaces the value in place,
assignment to a fresh key appends.  The third-party `expiringdict.ExpiringDict`
is modelled from its implementation: each entry stores its insertion time, a
lookup returns the value only while `now - insert_time < max_age_seconds`
(deleting the entry otherwise), and an insertion at `max_len` evicts the oldest
entry (or replaces the existing key).
-/

namespace TechSupportBot

/-- JSON scalar values as they appear in normalized responses. -/
inductive JsonValue where
  | str (s : String)
  | num (n : Int)
  | null
  deriving DecidableEq

/-- Body of a successfully parsed JSON response: either a JSON object (which
`munch.munchify` turns into a dict-like `Munch`) or a non-mapping value such as
a JSON array (on which the later item assignment raises `TypeError`). -/
inductive JsonBody where
  | obj (fields : List (String × JsonValue))
  | nonMapping
  deriving DecidableEq

/-- Abstraction of an `aiohttp.ClientResponse`: its HTTP status, its body text,
and the outcome of `await response_object.json()` — `none` models a body whose
JSON parsing raises (`aiohttp.ClientResponseError` / `JSONDecodeError`). -/
structure ResponseObject where
  status : Int
  text : String
  json : Option JsonBody
  deriving DecidableEq

/-- Result of `process_http_response`: the raw `{status, text}` shape, a
dict-like mapping, or a munchified non-mapping JSON value. -/
inductive NormalizedResponse where
  | raw (status : Int) (text : String)
  | mapping (fields : List (String × JsonValue))
  | nonMapping
  deriving DecidableEq

/-- Python dict lookup on an insertion-ordered association list. -/
def alistLookup {β : Type} (m : List (String × β)) (k : String) : Option β :=
  match m with
  | [] => none
  | (k', v) :: rest => if k' = k then some v else alistLookup rest k

/-- Python dict assignment: replace in place when the key exists, append
otherwise. -/
def alistSet {β : Type} (m : List (String × β)) (k : String) (v : β) :
    List (String × β) :=
  match m with
  | [] => [(k, v)]
  | (k', v') :: rest =>
      if k' = k then (k, v) :: rest else (k', v') :: alistSet rest k v

/-! ### Rate limiter (lines 131-166 of data.py) -/

/-- Errors `http_call` can raise in its rate-limit section: `HTTPRateLimit`
with the seconds to wait, or the `IndexError` Python would raise when indexing
an empty deque (reachable only for a quota of 0). -/
inductive HttpError where
  | rateLimit (timeToWait : ℤ)
  | indexError
  deriving DecidableEq

/-- The local `ignore_rate_limit` flag, always `False` in the source. -/
def ignore_rate_limit : Bool := false

/-- The `while ... popleft()` loop: drop timestamps from the front of the deque
while `now - front >= time_window`. -/
def dropExpired (now time_window : ℤ) : List ℤ → List ℤ
  | [] => []
  | t :: ts =>
      if time_window ≤ now - t then dropExpired now time_window ts else t :: ts

/-- `collections.deque.append` on a deque with `maxlen`: a full deque drops its
leftmost element; a deque with `maxlen=0` stays empty. -/
def dequeAppendMax (maxlen : Nat) (h : List ℤ) (x : ℤ) : List ℤ :=
  if maxlen = 0 then []
  else if maxlen ≤ h.length then h.tail ++ [x]
  else h ++ [x]

/-- Per-host body of the rate-limit section of `http_call`: drop expired
timestamps, then either raise (returning the mutated deque and the error) or
append `now`. -/
def rateLimitCheckHost (executions_allowed : Nat) (time_window : ℤ)
    (hist : List ℤ) (now : ℤ) : List ℤ × Option HttpError :=
  let h := dropExpired now time_window hist
  if ignore_rate_limit = false ∧ executions_allowed ≤ h.length then
    match h with
    | [] => (h, some HttpError.indexError)
    | t0 :: _ =>
        let time_to_wait := max (time_window - (now - t0)) 0
        (h, some (HttpError.rateLimit time_to_wait))
  else
    (dequeAppendMax executions_allowed h now, none)

abbrev RateLimits := List (String × Nat × ℤ)
abbrev RateHistory := List (String × List ℤ)

/-- The full rate-limit section of `http_call` over the
`url_rate_limit_history` dict: skip hosts with no policy; otherwise create the
host's (empty) deque when absent, run the per-host check, and store the
mutated deque back. -/
def rateLimitStage (rate_limits : RateLimits) (histMap : RateHistory)
    (root_url : String) (now : ℤ) : RateHistory × Option HttpError :=
  match alistLookup rate_limits root_url with
  | none => (histMap, none)
  | some (executions_allowed, time_window) =>
      let histMap1 :=
        match alistLookup histMap root_url with
        | none => alistSet histMap root_url []
        | some _ => histMap
      let hist := (alistLookup histMap1 root_url).getD []
      let res := rateLimitCheckHost executions_allowed time_window hist now
      (alistSet histMap1 root_url res.1, res.2)

/-! ### URL handling

String manipulation is written over `List Char` (`String.data`), because the
built-in `String` loops do not reduce inside the kernel.  The URLs and
parameters this bot handles are ASCII, so Python's `str.lower`/`str.upper`
coincide with mapping `Char.toLower`/`Char.toUpper`. -/

/-- Python `str.lower`. -/
def lowerStr (s : String) : String :=
  String.mk (s.data.map Char.toLower)

/-- Python `str.upper`. -/
def upperStr (s : String) : String :=
  String.mk (s.data.map Char.toUpper)

/-- The characters after the first occurrence of `//`, when there is one. -/
def afterSlashSlash : List Char → Option (List Char)
  | [] => none
  | '/' :: '/' :: rest => some rest
  | _ :: rest => afterSlashSlash rest

/-- `urllib.parse.urlparse(url).netloc` for the URLs this code handles: the
text after the first `//` up to the first `/`, `?` or `#`; empty when the URL
has no `//`. -/
def netloc (url : String) : String :=
  match afterSlashSlash url.data with
  | none => ""
  | some rest =>
      String.mk (rest.takeWhile (fun c => c != '/' && c != '?' && c != '#'))

/-- One character of `url.replace(" ", "%20").replace("+", "%2b")` — the two
replacements touch disjoint characters, so a single pass is equivalent. -/
def normChar (c : Char) : List Char :=
  if c = ' ' then ['%', '2', '0']
  else if c = '+' then ['%', '2', 'b']
  else [c]

/-- Line 168 of data.py: `url.replace(" ", "%20").replace("+", "%2b")`. -/
def normalizeUrl (url : String) : String :=
  String.mk (url.data.map normChar).flatten

/-- Uppercase hexadecimal digit, as `urllib.parse.quote` produces. -/
def hexDigitUpper (n : Nat) : Char :=
  if n < 10 then Char.ofNat (48 + n) else Char.ofNat (55 + n)

/-- UTF-8 encoding of one character, as byte values. -/
def utf8Bytes (c : Char) : List Nat :=
  let n := c.toNat
  if n < 128 then [n]
  else if n < 2048 then [192 + n / 64, 128 + n % 64]
  else if n < 65536 then [224 + n / 4096, 128 + n / 64 % 64, 128 + n % 64]
  else [240 + n / 262144, 128 + n / 4096 % 64, 128 + n / 64 % 64, 128 + n % 64]

/-- Byte values `urllib.parse.quote_plus` leaves unquoted: ASCII alphanumerics
and `_`, `.`, `-`, `~`. -/
def isAlwaysSafe (b : Nat) : Bool :=
  (65 ≤ b && b ≤ 90) || (97 ≤ b && b ≤ 122) || (48 ≤ b && b ≤ 57) ||
    b = 95 || b = 46 || b = 45 || b = 126

/-- Quote one byte of the UTF-8 encoding, with space becoming `+`. -/
def quoteByte (b : Nat) : List Char :=
  if b = 32 then ['+']
  else if isAlwaysSafe b then [Char.ofNat b]
  else ['%', hexDigitUpper (b / 16), hexDigitUpper (b % 16)]

/-- `urllib.parse.quote_plus` with its default arguments. -/
def quote_plus (s : String) : String :=
  String.mk ((s.data.map utf8Bytes).flatten.map quoteByte).flatten

/-- Python `"&".join`. -/
def joinAmp : List String → String
  | [] => ""
  | [x] => x
  | x :: rest => x ++ "&" ++ joinAmp rest

/-- `urllib.parse.urlencode(params)`: `k=v` pairs joined by `&`, in the
mapping's iteration order — no sorting is performed. -/
def urlencode (params : List (String × String)) : String :=
  joinAmp (params.map (fun p => quote_plus p.1 ++ "=" ++ quote_plus p.2))

/-- Lines 174-177 of data.py: the cache key is the lower-cased (already
normalized) URL, with `?` and the encoded parameters appended when
`kwargs.get("params")` is truthy (an empty dict is falsy). -/
def buildCacheKey (url : String) (params : Option (List (String × String))) :
    String :=
  let base := lowerStr url
  match params with
  | none => base
  | some [] => base
  | some ps => base ++ "?" ++ urlencode ps

/-! ### Response cache (`expiringdict.ExpiringDict`) -/

abbrev CacheEntries := List (String × ResponseObject × ℤ)

/-- ExpiringDict state: `max_len`, `max_age_seconds`, and the entries in
insertion order (oldest first), each carrying its insertion time. -/
structure HttpCache where
  max_len : Nat
  max_age_seconds : ℤ
  entries : CacheEntries
  deriving DecidableEq

def cacheDelete (entries : CacheEntries) (k : String) : CacheEntries :=
  entries.filter (fun e => e.1 != k)

/-- `ExpiringDict.get`: return the value while it is younger than
`max_age_seconds`; delete the entry and return nothing once it has expired. -/
def cacheGet (c : HttpCache) (now : ℤ) (key : String) :
    Option ResponseObject × HttpCache :=
  match c.entries.find? (fun e => e.1 == key) with
  | none => (none, c)
  | some (_, v, t) =>
      if now - t < c.max_age_seconds then (some v, c)
      else (none, { c with entries := cacheDelete c.entries key })

/-- `ExpiringDict.__contains__`: a key counts as present only while fresh; the
test itself deletes an expired entry. -/
def cacheContains (c : HttpCache) (now : ℤ) (key : String) :
    Bool × HttpCache :=
  match c.entries.find? (fun e => e.1 == key) with
  | none => (false, c)
  | some (_, _, t) =>
      if now - t < c.max_age_seconds then (true, c)
      else (false, { c with entries := cacheDelete c.entries key })

/-- `ExpiringDict.__setitem__`: at `max_len`, delete the key when (freshly)
present, else evict the oldest entry; then store `(value, now)`, replacing an
existing key in place or appending a fresh one. -/
def cacheSet (c : HttpCache) (now : ℤ) (key : String) (v : ResponseObject) :
    HttpCache :=
  let c1 :=
    if c.entries.length = c.max_len then
      let pc := cacheContains c now key
      if pc.1 then { pc.2 with entries := cacheDelete pc.2.entries key }
      else { pc.2 with entries := pc.2.entries.tail }
    else c
  let es := c1.entries
  let es2 :=
    if es.any (fun e => e.1 == key) then
      es.map (fun e => if e.1 == key then (key, v, now) else e)
    else es ++ [(key, v, now)]
  { c1 with entries := es2 }

/-! ### The DataBot facade state and http_call -/

/-- The facade state `http_call` reads and mutates: the static policy table
`rate_limits`, the per-host deques `url_rate_limit_history`, and the response
cache `http_cache`. -/
structure DataBot where
  rate_limits : RateLimits
  url_rate_limit_history : RateHistory
  http_cache : HttpCache
  deriving DecidableEq

/-- The host's timestamp sequence, empty when the host has no entry. -/
def histAt (bot : DataBot) (host : String) : List ℤ :=
  (alistLookup bot.url_rate_limit_history host).getD []

/-- The static policy table built in `DataBot.__init__` (the two
config-dependent `dumpdbg`/`linx` entries are omitted). -/
def default_rate_limits : RateLimits :=
  [("api.urbandictionary.com", (2, 60)),
   ("api.openai.com", (3, 60)),
   ("www.googleapis.com", (5, 60)),
   ("ipinfo.io", (1, 30)),
   ("api.open-notify.org", (1, 60)),
   ("geocode.xyz", (1, 60)),
   ("v2.jokeapi.dev", (10, 60)),
   ("api.kanye.rest", (1, 60)),
   ("newsapi.org", (1, 30)),
   ("accounts.spotify.com", (3, 60)),
   ("api.spotify.com", (3, 60)),
   ("api.mymemory.translated.net", (1, 60)),
   ("api.openweathermap.org", (3, 60)),
   ("api.wolframalpha.com", (3, 60)),
   ("xkcd.com", (5, 60)),
   ("api.github.com", (3, 60)),
   ("api.giphy.com", (3, 60)),
   ("strawpoll.com", (3, 60)),
   ("api.thecatapi.com", (10, 60))]

/-- `process_http_response`: store a GET result in the cache, then normalize —
raw `{status, text}` when requested, otherwise the parsed JSON with
`status_code` injected, an empty mapping (plus an error log) on a decode
failure, or the munchified value itself (plus a warning log) when item
assignment raises `TypeError`.  Returns the new state, the normalized
response, and the log messages emitted. -/
def process_http_response (bot : DataBot) (response_object : ResponseObject)
    (method cache_key : String) (get_raw_response : Bool)
    (log_message : String) (now : ℤ) :
    DataBot × NormalizedResponse × List String :=
  let bot1 :=
    if method = "get" then
      { bot with http_cache := cacheSet bot.http_cache now cache_key response_object }
    else bot
  let logs0 := [log_message]
  if get_raw_response then
    (bot1, NormalizedResponse.raw response_object.status response_object.text,
     logs0)
  else
    match response_object.json with
    | some (JsonBody.obj fields) =>
        (bot1,
         NormalizedResponse.mapping
           (alistSet fields "status_code" (JsonValue.num response_object.status)),
         logs0)
    | some JsonBody.nonMapping =>
        (bot1, NormalizedResponse.nonMapping,
         logs0 ++ ["Failed to add status_code to API response"])
    | none =>
        (bot1,
         NormalizedResponse.mapping
           (alistSet [] "status_code" (JsonValue.num response_object.status)),
         logs0 ++ [upperStr method ++ " request to URL: " ++ cache_key ++ " failed"])

/-- View of an `Except` value as a sum, to derive decidable equality. -/
def exceptToSum {ε α : Type} : Except ε α → ε ⊕ α
  | Except.error e => Sum.inl e
  | Except.ok a => Sum.inr a

instance {ε α : Type} [DecidableEq ε] [DecidableEq α] :
    DecidableEq (Except ε α) := fun a b =>
  decidable_of_iff (exceptToSum a = exceptToSum b)
    (by cases a <;> cases b <;> simp [exceptToSum])

/-- Outcome of one `http_call`: the facade state after the call, the result
(or the error raised), whether a transport request was issued, whether the
cache was consulted, and the log messages emitted. -/
structure HttpOutcome where
  bot : DataBot
  result : Except HttpError NormalizedResponse
  transportCalled : Bool
  cacheConsulted : Bool
  logs : List String
  deriving DecidableEq

/-- `DataBot.http_call`.  `now` is the value `time.time()` returns during the
call, and `transport` is the response object the `aiohttp` session would
produce if a transport request is issued. -/
def http_call (bot : DataBot) (method url : String)
    (params : Option (List (String × String)))
    (use_cache get_raw_response : Bool) (now : ℤ)
    (transport : ResponseObject) : HttpOutcome :=
  let root_url := netloc url
  let stage := rateLimitStage bot.rate_limits bot.url_rate_limit_history root_url now
  let bot1 := { bot with url_rate_limit_history := stage.1 }
  match stage.2 with
  | some e =>
      { bot := bot1, result := Except.error e, transportCalled := false,
        cacheConsulted := false, logs := [] }
  | none =>
      let url1 := normalizeUrl url
      let m := lowerStr method
      let cache_key := buildCacheKey url1 params
      let consult := use_cache && (m == "get")
      let looked :=
        if consult then cacheGet bot1.http_cache now cache_key
        else (none, bot1.http_cache)
      let bot2 := { bot1 with http_cache := looked.2 }
      match looked.1 with
      | some response_object =>
          let log_message := "Retrieving cached HTTP GET response (" ++ cache_key ++ ")"
          let pr := process_http_response bot2 response_object m cache_key
            get_raw_response log_message now
          { bot := pr.1, result := Except.ok pr.2.1, transportCalled := false,
            cacheConsulted := true, logs := pr.2.2 }
      | none =>
          let log_message := "Making HTTP " ++ upperStr m ++ " request to URL: " ++ cache_key
          let pr := process_http_response bot2 transport m cache_key
            get_raw_response log_message now
          { bot := pr.1, result := Except.ok pr.2.1, transportCalled := true,
            cacheConsulted := consult, logs := pr.2.2 }

/-- Iterate `http_call` with fixed method, URL, params and flags over a list
of `(now, transport)` pairs, collecting whether each call succeeded. -/
def runHttpCalls (bot : DataBot) (method url : String)
    (params : Option (List (String × String)))
    (use_cache get_raw_response : Bool) :
    List (ℤ × ResponseObject) → DataBot × List Bool
  | [] => (bot, [])
  | (now, tr) :: rest =>
      let o := http_call bot method url params use_cache get_raw_response now tr
      let ok := match o.result with
        | Except.ok _ => true
        | Except.error _ => false
      let r := runHttpCalls o.bot method url params use_cache get_raw_response rest
      (r.1, ok :: r.2)

/-! ### Plugin loader (`src/basement_bot/plugin.py`) -/

/-- A top-level binding of an imported module: whether it is callable, plus a
tag distinguishing distinct objects. -/
structure Binding where
  callable : Bool
  tag : Nat
  deriving DecidableEq

/-- Python `s.endswith(pat)`. -/
def endsWithStr (s pat : String) : Bool :=
  pat.data.isSuffixOf s.data

/-- Python `s.startswith(pat)`. -/
def startsWithStr (s pat : String) : Bool :=
  pat.data.isPrefixOf s.data

/-- `os.path.basename`: the characters after the last `/`. -/
def basename (path : String) : String :=
  String.mk (path.data.foldl (fun acc c => if c = '/' then [] else acc ++ [c]) [])

/-- Python `s[:-3]`. -/
def dropLast3 (s : String) : String :=
  String.mk (s.data.take (s.data.length - 3))

/-- Module names `load_plugins` derives from the globbed files: every `.py`
file that is not `__init__.py`, as `plugins.<basename without .py>`. -/
def plugin_module_names (files : List String) : List String :=
  (files.filter (fun f => !(endsWithStr f "__init__.py"))).map
    (fun f => "plugins." ++ dropLast3 (basename f))

/-- The bindings `load_plugins` passes to `bot.add_command` from one imported
module's `__dict__`: every binding whose name does not start with `__` and is
not `commands` — callability is not checked. -/
def load_plugins_registered (moduleDict : List (String × Binding)) :
    List (String × Binding) :=
  moduleDict.filter (fun p => !(startsWithStr p.1 "__") && p.1 != "commands")

/-! ### Association list lemmas -/

theorem alistLookup_alistSet_self {β : Type} (m : List (String × β)) (k : String) (v : β) :
    alistLookup (alistSet m k v) k = some v := by
  induction m with
  | nil => simp [alistSet, alistLookup]
  | cons p rest ih =>
      obtain ⟨k', v'⟩ := p
      by_cases h : k' = k
      · simp [alistSet, h, alistLookup]
      · simp [alistSet, h, alistLookup, ih]

theorem alistLookup_alistSet_ne {β : Type} (m : List (String × β)) {k k' : String} (v : β)
    (h : k' ≠ k) : alistLookup (alistSet m k v) k' = alistLookup m k' := by
  have h' : ¬(k = k') := fun hh => h hh.symm
  induction m with
  | nil => simp [alistSet, alistLookup, h']
  | cons p rest ih =>
      obtain ⟨k'', v''⟩ := p
      by_cases hk : k'' = k
      · subst hk
        simp [alistSet, alistLookup, h']
      · simp [alistSet, hk, alistLookup, ih]

theorem alistSet_eq_self {β : Type} {m : List (String × β)} {k : String} {v : β}
    (h : alistLookup m k = some v) : alistSet m k v = m := by
  induction m with
  | nil => simp [alistLookup] at h
  | cons p rest ih =>
      obtain ⟨k', v'⟩ := p
      by_cases hk : k' = k
      · subst hk
        simp [alistLookup] at h
        simp [alistSet, h]
      · simp [alistLookup, hk] at h
        simp [alistSet, hk, ih h]

/-! ### dropExpired lemmas -/

theorem dropExpired_suffix (now W : ℤ) (l : List ℤ) :
    dropExpired now W l <:+ l := by
  induction l with
  | nil => simp [dropExpired]
  | cons t ts ih =>
      by_cases h : W ≤ now - t
      · simpa [dropExpired, h] using ih.trans (List.suffix_cons t ts)
      · simp [dropExpired, h]

theorem dropExpired_sublist (now W : ℤ) (l : List ℤ) :
    (dropExpired now W l).Sublist l :=
  (dropExpired_suffix now W l).sublist

theorem dropExpired_length_le (now W : ℤ) (l : List ℤ) :
    (dropExpired now W l).length ≤ l.length :=
  (dropExpired_sublist now W l).length_le

theorem dropExpired_eq_or_length_lt (now W : ℤ) (l : List ℤ) :
    dropExpired now W l = l ∨ (dropExpired now W l).length < l.length := by
  induction l with
  | nil => simp [dropExpired]
  | cons t ts ih =>
      by_cases h : W ≤ now - t
      · right
        simp only [dropExpired, if_pos h, List.length_cons]
        exact Nat.lt_succ_of_le (dropExpired_length_le now W ts)
      · left
        simp [dropExpired, h]

theorem dropExpired_head_keep {now W : ℤ} {l : List ℤ} {t0 : ℤ}
    (h : (dropExpired now W l).head? = some t0) : now - t0 < W := by
  induction l with
  | nil => simp [dropExpired] at h
  | cons t ts ih =>
      by_cases hd : W ≤ now - t
      · exact ih (by simpa [dropExpired, hd] using h)
      · simp [dropExpired, hd] at h
        exact h ▸ lt_of_not_le hd

theorem dropExpired_cons_keep {now W t : ℤ} (ts : List ℤ) (h : now - t < W) :
    dropExpired now W (t :: ts) = t :: ts := by
  simp [dropExpired, not_le.mpr h]

theorem dropExpired_sorted_filter {now W : ℤ} {l : List ℤ}
    (hs : l.Pairwise (· ≤ ·)) :
    dropExpired now W l = l.filter (fun t => decide (now - t < W)) := by
  induction l with
  | nil => simp [dropExpired]
  | cons t ts ih =>
      rw [List.pairwise_cons] at hs
      by_cases h : W ≤ now - t
      · rw [dropExpired, if_pos h, List.filter_cons_of_neg (by simpa using not_lt.mpr h)]
        exact ih hs.2
      · rw [dropExpired, if_neg h, List.filter_cons_of_pos (by simpa using lt_of_not_le h)]
        congr 1
        symm
        apply List.filter_eq_self.mpr
        intro a ha
        have hta : t ≤ a := hs.1 a ha
        have : now - a < W := lt_of_le_of_lt (by linarith) (lt_of_not_le h)
        simpa using this

theorem dropExpired_eq_of_length {now W : ℤ} {l : List ℤ}
    (h : l.length ≤ (dropExpired now W l).length) : dropExpired now W l = l := by
  rcases dropExpired_eq_or_length_lt now W l with heq | hlt
  · exact heq
  · exact absurd h (not_le.mpr hlt)

/-! ### http_call shape lemmas -/

theorem process_http_response_bot (bot : DataBot) (r : ResponseObject)
    (method k : String) (grr : Bool) (log : String) (now : ℤ) :
    (process_http_response bot r method k grr log now).1 =
      (if method = "get" then
        { bot with http_cache := cacheSet bot.http_cache now k r }
      else bot) := by
  unfold process_http_response
  dsimp only
  split
  · rfl
  · split <;> rfl

theorem http_call_rate_limits (bot : DataBot) (method url : String)
    (params : Option (List (String × String))) (uc grr : Bool) (now : ℤ)
    (transport : ResponseObject) :
    (http_call bot method url params uc grr now transport).bot.rate_limits =
      bot.rate_limits := by
  unfold http_call
  dsimp only
  split
  · rfl
  · split <;>
      (dsimp only
       rw [process_http_response_bot]
       split <;> rfl)

theorem http_call_history_eq (bot : DataBot) (method url : String)
    (params : Option (List (String × String))) (uc grr : Bool) (now : ℤ)
    (transport : ResponseObject) :
    (http_call bot method url params uc grr now transport).bot.url_rate_limit_history =
      (rateLimitStage bot.rate_limits bot.url_rate_limit_history (netloc url) now).1 := by
  unfold http_call
  dsimp only
  split
  · rfl
  · split <;>
      (dsimp only
       rw [process_http_response_bot]
       split <;> rfl)

theorem http_call_result_error_iff (bot : DataBot) (method url : String)
    (params : Option (List (String × String))) (uc grr : Bool) (now : ℤ)
    (transport : ResponseObject) (e : HttpError) :
    (http_call bot method url params uc grr now transport).result = Except.error e ↔
      (rateLimitStage bot.rate_limits bot.url_rate_limit_history (netloc url) now).2 = some e := by
  unfold http_call
  dsimp only
  split
  · rename_i heq
    simp [heq]
  · rename_i heq
    split <;> simp [heq]

/-! ### rateLimitStage characterization -/

theorem rateLimitCheckHost_denied {Q : Nat} {W now t0 : ℤ} {hist tl : List ℤ}
    (hdrop : dropExpired now W hist = t0 :: tl) (hq : Q ≤ (t0 :: tl).length) :
    rateLimitCheckHost Q W hist now =
      (t0 :: tl, some (HttpError.rateLimit (max (W - (now - t0)) 0))) := by
  unfold rateLimitCheckHost
  dsimp only
  rw [hdrop, if_pos ⟨rfl, hq⟩]

theorem rateLimitCheckHost_allowed {Q : Nat} {W now : ℤ} {hist : List ℤ}
    (hlt : (dropExpired now W hist).length < Q) :
    rateLimitCheckHost Q W hist now = (dropExpired now W hist ++ [now], none) := by
  unfold rateLimitCheckHost
  dsimp only
  rw [if_neg (by simp [not_le.mpr hlt])]
  unfold dequeAppendMax
  rw [if_neg (Nat.pos_iff_ne_zero.mp (Nat.pos_of_ne_zero (by omega))), if_neg (not_le.mpr hlt)]

theorem rateLimitStage_no_policy {limits : RateLimits} {m : RateHistory}
    {root : String} {now : ℤ} (hpol : alistLookup limits root = none) :
    rateLimitStage limits m root now = (m, none) := by
  unfold rateLimitStage
  rw [hpol]

theorem rateLimitStage_eq {limits : RateLimits} {m : RateHistory} {root : String}
    {now : ℤ} {Q : Nat} {W : ℤ} (hpol : alistLookup limits root = some (Q, W)) :
    rateLimitStage limits m root now =
      (alistSet
        (match alistLookup m root with
          | none => alistSet m root []
          | some _ => m)
        root (rateLimitCheckHost Q W ((alistLookup m root).getD []) now).1,
       (rateLimitCheckHost Q W ((alistLookup m root).getD []) now).2) := by
  unfold rateLimitStage
  rw [hpol]
  dsimp only
  rcases h : alistLookup m root with - | hist
  · simp [h, alistLookup_alistSet_self]
  · simp [h]

theorem rateLimitStage_lookup_ne {limits : RateLimits} {m : RateHistory}
    {root : String} {now : ℤ} {host' : String} (hne : host' ≠ root) :
    alistLookup (rateLimitStage limits m root now).1 host' = alistLookup m host' := by
  rcases hp : alistLookup limits root with - | ⟨Q, W⟩
  · rw [rateLimitStage_no_policy hp]
  · rw [rateLimitStage_eq hp]
    dsimp only
    rw [alistLookup_alistSet_ne _ _ hne]
    rcases h : alistLookup m root with - | hist
    · rw [alistLookup_alistSet_ne _ _ hne]
    · rfl

theorem http_call_error_outcome {bot : DataBot} {method url : String}
    {params : Option (List (String × String))} {uc grr : Bool} {now : ℤ}
    {transport : ResponseObject} {e : HttpError}
    (h : (rateLimitStage bot.rate_limits bot.url_rate_limit_history (netloc url) now).2 = some e) :
    http_call bot method url params uc grr now transport =
      { bot := { bot with url_rate_limit_history :=
            (rateLimitStage bot.rate_limits bot.url_rate_limit_history (netloc url) now).1 },
        result := Except.error e, transportCalled := false,
        cacheConsulted := false, logs := [] } := by
  unfold http_call
  dsimp only
  rw [h]

theorem http_call_allowed {bot : DataBot} (method url : String)
    (params : Option (List (String × String))) (uc grr : Bool) (now : ℤ)
    (transport : ResponseObject) {Q : Nat} {W : ℤ}
    (hpol : alistLookup bot.rate_limits (netloc url) = some (Q, W))
    (hlt : (dropExpired now W (histAt bot (netloc url))).length < Q) :
    (∃ r, (http_call bot method url params uc grr now transport).result = Except.ok r) ∧
    histAt (http_call bot method url params uc grr now transport).bot (netloc url) =
      dropExpired now W (histAt bot (netloc url)) ++ [now] := by
  have hstage :
      rateLimitStage bot.rate_limits bot.url_rate_limit_history (netloc url) now =
        (alistSet
          (match alistLookup bot.url_rate_limit_history (netloc url) with
            | none => alistSet bot.url_rate_limit_history (netloc url) []
            | some _ => bot.url_rate_limit_history)
          (netloc url) (dropExpired now W (histAt bot (netloc url)) ++ [now]), none) := by
    rw [rateLimitStage_eq hpol]
    rw [show (alistLookup bot.url_rate_limit_history (netloc url)).getD [] =
      histAt bot (netloc url) from rfl]
    rw [rateLimitCheckHost_allowed hlt]
  constructor
  · rcases hres : (http_call bot method url params uc grr now transport).result with e | r
    · exfalso
      have := (http_call_result_error_iff bot method url params uc grr now transport e).mp hres
      rw [hstage] at this
      exact absurd this (by simp)
    · exact ⟨r, rfl⟩
  · unfold histAt
    rw [http_call_history_eq, hstage]
    dsimp only
    rw [alistLookup_alistSet_self]
    rfl

theorem http_call_denied {bot : DataBot} (method url : String)
    (params : Option (List (String × String))) (uc grr : Bool) (now : ℤ)
    (transport : ResponseObject) {Q : Nat} {W t0 : ℤ} {tl : List ℤ}
    (hpol : alistLookup bot.rate_limits (netloc url) = some (Q, W))
    (hdrop : dropExpired now W (histAt bot (netloc url)) = t0 :: tl)
    (hq : Q ≤ (t0 :: tl).length) :
    (http_call bot method url params uc grr now transport).result =
      Except.error (HttpError.rateLimit (max (W - (now - t0)) 0)) ∧
    histAt (http_call bot method url params uc grr now transport).bot (netloc url) =
      t0 :: tl := by
  have hstage :
      rateLimitStage bot.rate_limits bot.url_rate_limit_history (netloc url) now =
        (alistSet
          (match alistLookup bot.url_rate_limit_history (netloc url) with
            | none => alistSet bot.url_rate_limit_history (netloc url) []
            | some _ => bot.url_rate_limit_history)
          (netloc url) (t0 :: tl),
         some (HttpError.rateLimit (max (W - (now - t0)) 0))) := by
    rw [rateLimitStage_eq hpol]
    rw [show (alistLookup bot.url_rate_limit_history (netloc url)).getD [] =
      histAt bot (netloc url) from rfl]
    rw [rateLimitCheckHost_denied hdrop hq]
  constructor
  · exact (http_call_result_error_iff bot method url params uc grr now transport _).mpr
      (by rw [hstage])
  · unfold histAt
    rw [http_call_history_eq, hstage]
    dsimp only
    rw [alistLookup_alistSet_self]
    rfl

theorem rateLimitCheckHost_rateLimit_inv {Q : Nat} {W : ℤ} {hist : List ℤ}
    {now w : ℤ}
    (h : (rateLimitCheckHost Q W hist now).2 = some (HttpError.rateLimit w)) :
    Q ≤ (dropExpired now W hist).length ∧ dropExpired now W hist ≠ [] := by
  unfold rateLimitCheckHost at h
  dsimp only at h
  by_cases hc : ignore_rate_limit = false ∧ Q ≤ (dropExpired now W hist).length
  · rw [if_pos hc] at h
    rcases hd : dropExpired now W hist with - | ⟨t0, tl⟩
    · rw [hd] at h
      simp at h
    · rw [hd] at hc
      exact ⟨hc.2, by simp⟩
  · rw [if_neg hc] at h
    simp at h

theorem dropExpired_eq_self {now W : ℤ} {l : List ℤ}
    (h : ∀ x ∈ l, now - x < W) : dropExpired now W l = l := by
  cases l with
  | nil => rfl
  | cons t ts => exact dropExpired_cons_keep ts (h t (by simp))

theorem http_call_no_policy {bot : DataBot} (method url : String)
    (params : Option (List (String × String))) (uc grr : Bool) (now : ℤ)
    (transport : ResponseObject)
    (hpol : alistLookup bot.rate_limits (netloc url) = none) :
    (∃ r, (http_call bot method url params uc grr now transport).result = Except.ok r) ∧
    (http_call bot method url params uc grr now transport).bot.url_rate_limit_history =
      bot.url_rate_limit_history := by
  have hstage : rateLimitStage bot.rate_limits bot.url_rate_limit_history
      (netloc url) now = (bot.url_rate_limit_history, none) :=
    rateLimitStage_no_policy hpol
  constructor
  · rcases hres : (http_call bot method url params uc grr now transport).result with e | r
    · exfalso
      have := (http_call_result_error_iff bot method url params uc grr now transport e).mp hres
      rw [hstage] at this
      exact absurd this (by simp)
    · exact ⟨r, rfl⟩
  · rw [http_call_history_eq, hstage]

/-- Q allowed calls accumulate their timestamps: starting with history `hs`
for the call's host, a run of calls at nondecreasing times, all inside one
window and fitting under the quota, is fully allowed and appends every call
time. -/
theorem runHttpCalls_window (method url : String)
    (params : Option (List (String × String))) (uc grr : Bool)
    {Q : Nat} {W : ℤ} :
    ∀ (calls : List (ℤ × ResponseObject)) (bot : DataBot) (hs : List ℤ),
      alistLookup bot.rate_limits (netloc url) = some (Q, W) →
      histAt bot (netloc url) = hs →
      (hs ++ calls.map Prod.fst).Pairwise (· ≤ ·) →
      (∀ x ∈ hs ++ calls.map Prod.fst, ∀ y ∈ hs ++ calls.map Prod.fst, y - x < W) →
      hs.length + calls.length ≤ Q →
      (runHttpCalls bot method url params uc grr calls).2.all id = true ∧
      (runHttpCalls bot method url params uc grr calls).1.rate_limits = bot.rate_limits ∧
      histAt (runHttpCalls bot method url params uc grr calls).1 (netloc url) =
        hs ++ calls.map Prod.fst := by
  intro calls
  induction calls with
  | nil =>
      intro bot hs hpol hhist _ _ _
      simpa [runHttpCalls] using hhist
  | cons c rest ih =>
      intro bot hs hpol hhist hsorted hwin hlen
      obtain ⟨t, tr⟩ := c
      have hmem_t : t ∈ hs ++ (t, tr).1 :: rest.map Prod.fst := by simp
      have hdrop : dropExpired t W hs = hs := by
        apply dropExpired_eq_self
        intro x hx
        exact hwin x (by simp [hx]) t hmem_t
      have hlt : (dropExpired t W (histAt bot (netloc url))).length < Q := by
        rw [hhist, hdrop]
        simp only [List.length_cons] at hlen
        omega
      obtain ⟨⟨r, hr⟩, hafter⟩ := http_call_allowed method url params uc grr t tr hpol hlt
      rw [hhist, hdrop] at hafter
      have hpol' : alistLookup
          (http_call bot method url params uc grr t tr).bot.rate_limits (netloc url) =
          some (Q, W) := by
        rw [http_call_rate_limits]
        exact hpol
      have happrest : hs ++ (t, tr).1 :: rest.map Prod.fst =
          (hs ++ [t]) ++ rest.map Prod.fst := by simp
      have hsorted' : ((hs ++ [t]) ++ rest.map Prod.fst).Pairwise (· ≤ ·) := by
        rw [← happrest]
        exact hsorted
      have hwin' : ∀ x ∈ (hs ++ [t]) ++ rest.map Prod.fst,
          ∀ y ∈ (hs ++ [t]) ++ rest.map Prod.fst, y - x < W := by
        rw [← happrest]
        exact hwin
      have hlen' : (hs ++ [t]).length + rest.length ≤ Q := by
        simp only [List.length_append, List.length_singleton]
        simp only [List.length_cons] at hlen
        omega
      obtain ⟨hall, hrl, hhist'⟩ :=
        ih (http_call bot method url params uc grr t tr).bot (hs ++ [t]) hpol' hafter
          hsorted' hwin' hlen'
      refine ⟨?_, ?_, ?_⟩
      · simp only [runHttpCalls, hr]
        simpa using hall
      · simp only [runHttpCalls]
        rw [hrl, http_call_rate_limits]
      · simp only [runHttpCalls]
        rw [hhist']
        simp

/-! ### Sample values used by witnesses -/

def sampleResponse : ResponseObject :=
  { status := 200, text := "ok", json := some (JsonBody.obj [("a", JsonValue.num 1)]) }

def sampleBadResponse : ResponseObject :=
  { status := 500, text := "oops", json := none }

def sampleCache : HttpCache :=
  { max_len := 10, max_age_seconds := 60, entries := [] }

def sampleBot : DataBot :=
  { rate_limits := [("h.com", (2, 60))],
    url_rate_limit_history := [("h.com", [10, 20])],
    http_cache := sampleCache }

/-! ### Claim theorems -/

/-- C1: for a host with policy (quota `Q`, window `W`), `http_call` first
drops from the front of the host's deque every timestamp at least `W` old
(for a sorted deque this is exactly filtering to the window); if `Q` or more
timestamps remain it fails with a rate-limit error whose wait time is
`W - (now - oldest)` clamped to be non-negative, a value that is `> 0` and
`≤ W`; otherwise `now` is appended and the call is allowed; and after `Q`
allowed calls within `W` of each other, a `(Q+1)`-th call in the same window
fails with such an error. -/
theorem C1_sliding_window_rate_limiter (bot : DataBot) (method url : String)
    (params : Option (List (String × String))) (use_cache get_raw_response : Bool)
    (now : ℤ) (transport : ResponseObject) (Q : Nat) (W : ℤ) (hist : List ℤ)
    (hQ : 0 < Q)
    (hpol : alistLookup bot.rate_limits (netloc url) = some (Q, W))
    (hhist : histAt bot (netloc url) = hist)
    (hsorted : hist.Pairwise (· ≤ ·))
    (hpast : ∀ t ∈ hist, t ≤ now) :
    (dropExpired now W hist = hist.filter (fun t => decide (now - t < W))) ∧
    (∀ t0 tl, dropExpired now W hist = t0 :: tl → Q ≤ (t0 :: tl).length →
      (http_call bot method url params use_cache get_raw_response now transport).result =
        Except.error (HttpError.rateLimit (max (W - (now - t0)) 0)) ∧
      0 < max (W - (now - t0)) 0 ∧ max (W - (now - t0)) 0 ≤ W) ∧
    ((dropExpired now W hist).length < Q →
      (∃ r, (http_call bot method url params use_cache get_raw_response now
        transport).result = Except.ok r) ∧
      histAt (http_call bot method url params use_cache get_raw_response now
        transport).bot (netloc url) = dropExpired now W hist ++ [now]) ∧
    (∀ (calls : List (ℤ × ResponseObject)) (t' : ℤ) (tr' : ResponseObject),
      hist = [] →
      (calls.map Prod.fst).Pairwise (· ≤ ·) →
      calls.length = Q →
      (∀ x ∈ calls.map Prod.fst, ∀ y ∈ calls.map Prod.fst, y - x < W) →
      (∀ x ∈ calls.map Prod.fst, x ≤ t' ∧ t' - x < W) →
      (runHttpCalls bot method url params use_cache get_raw_response calls).2.all id
        = true ∧
      ∃ w, (http_call (runHttpCalls bot method url params use_cache get_raw_response
          calls).1 method url params use_cache get_raw_response t' tr').result =
            Except.error (HttpError.rateLimit w) ∧ 0 < w ∧ w ≤ W) := by
  refine ⟨dropExpired_sorted_filter hsorted, ?_, ?_, ?_⟩
  · intro t0 tl hdrop hq
    have hdrop' : dropExpired now W (histAt bot (netloc url)) = t0 :: tl := by
      rw [hhist]; exact hdrop
    have hmemt0 : t0 ∈ hist := by
      have : t0 ∈ dropExpired now W hist := by rw [hdrop]; simp
      exact (dropExpired_sublist now W hist).mem this
    have ht0now : t0 ≤ now := hpast t0 hmemt0
    have hkeep : now - t0 < W := dropExpired_head_keep (by rw [hdrop]; rfl)
    refine ⟨(http_call_denied method url params use_cache get_raw_response now
      transport hpol hdrop' hq).1, ?_, ?_⟩
    · have h1 : (0 : ℤ) < W - (now - t0) := by omega
      exact lt_max_iff.mpr (Or.inl h1)
    · have h2 : W - (now - t0) ≤ W := by omega
      have h3 : (0 : ℤ) ≤ W := by omega
      exact max_le h2 h3
  · intro hlt
    have hlt' : (dropExpired now W (histAt bot (netloc url))).length < Q := by
      rw [hhist]; exact hlt
    have h := http_call_allowed method url params use_cache get_raw_response now
      transport hpol hlt'
    rw [hhist] at h
    exact h
  · intro calls t' tr' hnil hsortedc hlenc hwinc ht'
    have hhist0 : histAt bot (netloc url) = [] := by rw [hhist, hnil]
    obtain ⟨hall, hrl, hfinal⟩ := runHttpCalls_window method url params use_cache
      get_raw_response calls bot [] hpol hhist0 (by simpa using hsortedc)
      (by simpa using hwinc) (by simpa using hlenc.le)
    refine ⟨hall, ?_⟩
    have hpol' : alistLookup (runHttpCalls bot method url params use_cache
        get_raw_response calls).1.rate_limits (netloc url) = some (Q, W) := by
      rw [hrl]; exact hpol
    rcases hts : calls.map Prod.fst with - | ⟨t0, tl⟩
    · exfalso
      have : calls.length = 0 := by simpa using congrArg List.length hts
      omega
    · have hfinal' : histAt (runHttpCalls bot method url params use_cache
          get_raw_response calls).1 (netloc url) = t0 :: tl := by
        rw [hfinal, hts]
        simp
      have hdropf : dropExpired t' W (histAt (runHttpCalls bot method url params
          use_cache get_raw_response calls).1 (netloc url)) = t0 :: tl := by
        rw [hfinal']
        apply dropExpired_eq_self
        intro x hx
        exact (ht' x (by rw [hts]; exact hx)).2
      have hqlen : Q ≤ (t0 :: tl).length := by
        have : calls.length = (t0 :: tl).length := by
          rw [← hts]; simp
        omega
      have hden := http_call_denied method url params use_cache get_raw_response t'
        tr' hpol' hdropf hqlen
      have ht0 : t0 ∈ calls.map Prod.fst := by rw [hts]; simp
      have h1 : t0 ≤ t' := (ht' t0 ht0).1
      have h2 : t' - t0 < W := (ht' t0 ht0).2
      have hb1 : (0 : ℤ) < W - (t' - t0) := by omega
      have hb2 : W - (t' - t0) ≤ W := by omega
      have hb3 : (0 : ℤ) ≤ W := by omega
      exact ⟨max (W - (t' - t0)) 0, hden.1,
        lt_max_iff.mpr (Or.inl hb1), max_le hb2 hb3⟩

/-- Witness for C1: with a 2-per-60 policy and history `[10, 20]`, a third
call at time 30 is denied with wait time `60 - (30 - 10) = 40`. -/
theorem C1_sliding_window_rate_limiter_witness :
    (http_call sampleBot "get" "http://h.com/x" none false false 30
      sampleResponse).result = Except.error (HttpError.rateLimit 40) := by
  have h := (C1_sliding_window_rate_limiter sampleBot "get" "http://h.com/x" none
    false false 30 sampleResponse 2 60 [10, 20] (by decide) (by decide) (by decide)
    (by decide) (by decide)).2.1 10 [20] (by decide) (by decide)
  have h40 : max ((60 : ℤ) - (30 - 10)) 0 = 40 := by decide
  rw [h40] at h
  exact h.1

theorem runHttpCalls_no_policy (method url : String)
    (params : Option (List (String × String))) (uc grr : Bool) :
    ∀ (calls : List (ℤ × ResponseObject)) (bot : DataBot),
      alistLookup bot.rate_limits (netloc url) = none →
      (runHttpCalls bot method url params uc grr calls).2.all id = true ∧
      (runHttpCalls bot method url params uc grr calls).1.url_rate_limit_history =
        bot.url_rate_limit_history := by
  intro calls
  induction calls with
  | nil =>
      intro bot _
      simp [runHttpCalls]
  | cons c rest ih =>
      intro bot hpol
      obtain ⟨now, tr⟩ := c
      obtain ⟨⟨r, hr⟩, hh⟩ := http_call_no_policy method url params uc grr now tr hpol
      have hpol' : alistLookup
          (http_call bot method url params uc grr now tr).bot.rate_limits
          (netloc url) = none := by
        rw [http_call_rate_limits]
        exact hpol
      obtain ⟨hall, hrest⟩ := ih (http_call bot method url params uc grr now tr).bot hpol'
      refine ⟨?_, ?_⟩
      · simp only [runHttpCalls, hr]
        simpa using hall
      · simp only [runHttpCalls]
        rw [hrest, hh]

/-- C8: a host absent from the rate-limit policy table always passes the
rate-limit stage: a single call never fails and leaves the whole rate-limiter
state untouched, and so does any sequence of calls in any time window. -/
theorem C8_unlisted_host_unlimited (bot : DataBot) (method url : String)
    (params : Option (List (String × String))) (uc grr : Bool)
    (hpol : alistLookup bot.rate_limits (netloc url) = none) :
    (∀ (now : ℤ) (transport : ResponseObject),
      (∃ r, (http_call bot method url params uc grr now transport).result =
        Except.ok r) ∧
      (http_call bot method url params uc grr now transport).bot.url_rate_limit_history =
        bot.url_rate_limit_history) ∧
    (∀ calls : List (ℤ × ResponseObject),
      (runHttpCalls bot method url params uc grr calls).2.all id = true ∧
      (runHttpCalls bot method url params uc grr calls).1.url_rate_limit_history =
        bot.url_rate_limit_history) := by
  constructor
  · intro now transport
    exact http_call_no_policy method url params uc grr now transport hpol
  · intro calls
    exact runHttpCalls_no_policy method url params uc grr calls bot hpol

def sampleBotFree : DataBot :=
  { rate_limits := [], url_rate_limit_history := [], http_cache := sampleCache }

/-- Witness for C8: with an empty policy table a call succeeds and creates no
rate-limiter state. -/
theorem C8_unlisted_host_unlimited_witness :
    (∃ r, (http_call sampleBotFree "get" "http://x.com/a" none false false 5
      sampleResponse).result = Except.ok r) ∧
    (http_call sampleBotFree "get" "http://x.com/a" none false false 5
      sampleResponse).bot.url_rate_limit_history =
      sampleBotFree.url_rate_limit_history :=
  (C8_unlisted_host_unlimited sampleBotFree "get" "http://x.com/a" none false
    false (by decide)).1 5 sampleResponse

theorem rateLimitCheckHost_fst_denied {Q : Nat} {W now : ℤ} {hist : List ℤ}
    (hc : Q ≤ (dropExpired now W hist).length) :
    (rateLimitCheckHost Q W hist now).1 = dropExpired now W hist := by
  unfold rateLimitCheckHost
  dsimp only
  rw [if_pos ⟨rfl, hc⟩]
  rcases hd : dropExpired now W hist with - | ⟨t0, tl⟩ <;> simp

/-- C3: when `http_call` fails with the rate-limit error, the failure happens
before any transport call and before the cache is read or written: the whole
outcome is exactly the error, with the facade state unchanged, no transport
call, no cache consultation, and no log emitted.  The hypothesis `hlen` is the
deque-length invariant (C7), which every reachable state satisfies. -/
theorem C3_rate_limit_error_is_atomic (bot : DataBot) (method url : String)
    (params : Option (List (String × String))) (uc grr : Bool) (now : ℤ)
    (transport : ResponseObject) (Q : Nat) (W w : ℤ)
    (hpol : alistLookup bot.rate_limits (netloc url) = some (Q, W))
    (hlen : (histAt bot (netloc url)).length ≤ Q)
    (herr : (http_call bot method url params uc grr now transport).result =
      Except.error (HttpError.rateLimit w)) :
    http_call bot method url params uc grr now transport =
      { bot := bot, result := Except.error (HttpError.rateLimit w),
        transportCalled := false, cacheConsulted := false, logs := [] } := by
  have hstage2 := (http_call_result_error_iff bot method url params uc grr now
    transport (HttpError.rateLimit w)).mp herr
  have houtcome := @http_call_error_outcome bot method url params uc grr now
    transport (HttpError.rateLimit w) hstage2
  have hcheck2 : (rateLimitCheckHost Q W (histAt bot (netloc url)) now).2 =
      some (HttpError.rateLimit w) := by
    rw [rateLimitStage_eq hpol] at hstage2
    exact hstage2
  have hinv := rateLimitCheckHost_rateLimit_inv hcheck2
  have hdropeq : dropExpired now W (histAt bot (netloc url)) = histAt bot (netloc url) :=
    dropExpired_eq_of_length (le_trans hlen hinv.1)
  have hnonempty : histAt bot (netloc url) ≠ [] := by
    rw [← hdropeq]
    exact hinv.2
  rcases hl : alistLookup bot.url_rate_limit_history (netloc url) with - | hist0
  · exfalso
    apply hnonempty
    unfold histAt
    rw [hl]
    rfl
  · have hhist0 : histAt bot (netloc url) = hist0 := by
      unfold histAt
      rw [hl]
      rfl
    have hstage1 : (rateLimitStage bot.rate_limits bot.url_rate_limit_history
        (netloc url) now).1 = bot.url_rate_limit_history := by
      rw [rateLimitStage_eq hpol, hl]
      dsimp only
      rw [show (some hist0).getD [] = hist0 from rfl]
      rw [show (rateLimitCheckHost Q W hist0 now).1 = hist0 by
        rw [← hhist0, rateLimitCheckHost_fst_denied hinv.1, hdropeq]]
      exact alistSet_eq_self hl
    rw [houtcome, hstage1]

/-- Witness for C3: the denied third call of the sample scenario returns the
error and the exact pre-call state. -/
theorem C3_rate_limit_error_is_atomic_witness :
    http_call sampleBot "get" "http://h.com/x" none true false 30 sampleResponse =
      { bot := sampleBot, result := Except.error (HttpError.rateLimit 40),
        transportCalled := false, cacheConsulted := false, logs := [] } :=
  C3_rate_limit_error_is_atomic sampleBot "get" "http://h.com/x" none true false
    30 sampleResponse 2 60 40 (by decide) (by decide) (by decide)

/-- The invariant C7 claims for `url_rate_limit_history`: for every host with
a configured policy, the host's deque is no longer than the quota, sorted in
time, and contains only timestamps up to `clock`. -/
def histInvariant (bot : DataBot) (clock : ℤ) : Prop :=
  ∀ host Q W, alistLookup bot.rate_limits host = some (Q, W) →
    (histAt bot host).length ≤ Q ∧
    (histAt bot host).Pairwise (· ≤ ·) ∧
    ∀ t ∈ histAt bot host, t ≤ clock

/-- C7: every `http_call` preserves the per-host history invariant — length
bounded by the quota and monotonically non-decreasing timestamps — assuming
successive `now` readings are non-decreasing (`now ≤ clock'`). -/
theorem C7_history_invariant_preserved (bot : DataBot) (method url : String)
    (params : Option (List (String × String))) (uc grr : Bool) (now : ℤ)
    (transport : ResponseObject) (clock' : ℤ)
    (hinv : histInvariant bot now) (hle : now ≤ clock') :
    histInvariant (http_call bot method url params uc grr now transport).bot clock' := by
  intro host Q W hpol'
  rw [http_call_rate_limits] at hpol'
  have hh : histAt (http_call bot method url params uc grr now transport).bot host =
      (alistLookup (rateLimitStage bot.rate_limits bot.url_rate_limit_history
        (netloc url) now).1 host).getD [] := by
    unfold histAt
    rw [http_call_history_eq]
  by_cases hhost : host = netloc url
  · subst hhost
    obtain ⟨hlen, hsorted, hbound⟩ := hinv (netloc url) Q W hpol'
    have hmem : ∀ t ∈ dropExpired now W (histAt bot (netloc url)), t ≤ now := fun t ht =>
      hbound t ((dropExpired_sublist now W (histAt bot (netloc url))).mem ht)
    have hsorted' : (dropExpired now W (histAt bot (netloc url))).Pairwise (· ≤ ·) :=
      hsorted.sublist (dropExpired_sublist now W (histAt bot (netloc url)))
    have hnew : histAt (http_call bot method url params uc grr now transport).bot (netloc url) =
        (rateLimitCheckHost Q W (histAt bot (netloc url)) now).1 := by
      rw [hh, rateLimitStage_eq hpol']
      dsimp only
      rw [alistLookup_alistSet_self]
      rfl
    by_cases hc : Q ≤ (dropExpired now W (histAt bot (netloc url))).length
    · rw [hnew, rateLimitCheckHost_fst_denied hc]
      refine ⟨le_trans (dropExpired_length_le now W (histAt bot (netloc url))) hlen, hsorted', ?_⟩
      intro t ht
      exact le_trans (hmem t ht) hle
    · rw [hnew, rateLimitCheckHost_allowed (not_le.mp hc)]
      refine ⟨?_, ?_, ?_⟩
      · rw [List.length_append]
        have := not_le.mp hc
        simp only [List.length_singleton]
        omega
      · rw [List.pairwise_append]
        exact ⟨hsorted', List.pairwise_singleton _ _, fun a ha b hb => by
          rw [List.mem_singleton] at hb
          exact hb ▸ hmem a ha⟩
      · intro t ht
        rw [List.mem_append] at ht
        rcases ht with ht | ht
        · exact le_trans (hmem t ht) hle
        · rw [List.mem_singleton] at ht
          exact ht ▸ hle
  · obtain ⟨hlen, hsorted, hbound⟩ := hinv host Q W hpol'
    rw [hh, rateLimitStage_lookup_ne hhost]
    exact ⟨hlen, hsorted, fun t ht => le_trans (hbound t ht) hle⟩

/-- Witness for C7: the sample state satisfies the invariant at time 30 and
still satisfies it after a call at time 30. -/
theorem C7_history_invariant_preserved_witness :
    histInvariant (http_call sampleBot "get" "http://h.com/x" none false false 30
      sampleResponse).bot 30 := by
  apply C7_history_invariant_preserved sampleBot "get" "http://h.com/x" none false
    false 30 sampleResponse 30 ?_ (le_refl 30)
  intro host Q W h
  simp only [sampleBot, alistLookup] at h
  split at h
  · rename_i heq
    rw [Option.some.injEq, Prod.mk.injEq] at h
    obtain ⟨hQ, hW⟩ := h
    subst hQ hW
    rw [show host = "h.com" from heq.symm ▸ rfl] at *
    refine ⟨by decide, by decide, by decide⟩
  · simp at h

/-! ### Cache lemmas -/

/-- The pure normalization part of `process_http_response`, as a function of
the response object and the raw-mode flag alone. -/
def normalizeResult (r : ResponseObject) (grr : Bool) : NormalizedResponse :=
  if grr then NormalizedResponse.raw r.status r.text
  else match r.json with
    | some (JsonBody.obj fields) =>
        NormalizedResponse.mapping
          (alistSet fields "status_code" (JsonValue.num r.status))
    | some JsonBody.nonMapping => NormalizedResponse.nonMapping
    | none =>
        NormalizedResponse.mapping
          (alistSet [] "status_code" (JsonValue.num r.status))

theorem process_http_response_result (bot : DataBot) (r : ResponseObject)
    (method k : String) (grr : Bool) (log : String) (now : ℤ) :
    (process_http_response bot r method k grr log now).2.1 = normalizeResult r grr := by
  unfold process_http_response normalizeResult
  dsimp only
  cases grr with
  | true => rfl
  | false =>
      rcases r.json with - | body
      · rfl
      · cases body <;> rfl

theorem find?_eq_none_of_keyfree {E : CacheEntries} {K : String}
    (h : ∀ e ∈ E, e.1 ≠ K) : E.find? (fun e => e.1 == K) = none := by
  apply List.find?_eq_none.mpr
  intro e he
  simpa using h e he

theorem find?_append_keyfree {E l : CacheEntries} {K : String}
    (h : ∀ e ∈ E, e.1 ≠ K) :
    (E ++ l).find? (fun e => e.1 == K) = l.find? (fun e => e.1 == K) := by
  induction E with
  | nil => rfl
  | cons e rest ih =>
      have he : (e.1 == K) = false := by simpa using h e (by simp)
      simp only [List.cons_append, List.find?_cons, he, cond_false]
      exact ih (fun x hx => h x (by simp [hx]))

theorem cacheDelete_append_keyfree {E : CacheEntries} {K : String}
    {v : ResponseObject} {t : ℤ} (h : ∀ e ∈ E, e.1 ≠ K) :
    cacheDelete (E ++ [(K, v, t)]) K = E := by
  unfold cacheDelete
  rw [List.filter_append]
  have h1 : E.filter (fun e => e.1 != K) = E :=
    List.filter_eq_self.mpr (fun e he => by simpa using h e he)
  have h2 : ([((K : String), v, t)] : CacheEntries).filter (fun e => e.1 != K) = [] := by
    simp
  rw [h1, h2, List.append_nil]

theorem cacheGet_absent {c : HttpCache} {now : ℤ} {K : String}
    (h : ∀ e ∈ c.entries, e.1 ≠ K) : cacheGet c now K = (none, c) := by
  unfold cacheGet
  rw [find?_eq_none_of_keyfree h]

theorem cacheGet_end_fresh {c : HttpCache} {now : ℤ} {K : String}
    (E : CacheEntries) {v : ResponseObject} {t : ℤ}
    (hent : c.entries = E ++ [(K, v, t)]) (hfree : ∀ e ∈ E, e.1 ≠ K)
    (hfresh : now - t < c.max_age_seconds) :
    cacheGet c now K = (some v, c) := by
  unfold cacheGet
  rw [hent, find?_append_keyfree hfree]
  simp only [List.find?_cons, beq_self_eq_true, cond_true]
  rw [if_pos hfresh]

theorem cacheGet_end_stale {c : HttpCache} {now : ℤ} {K : String}
    (E : CacheEntries) {v : ResponseObject} {t : ℤ}
    (hent : c.entries = E ++ [(K, v, t)]) (hfree : ∀ e ∈ E, e.1 ≠ K)
    (hstale : c.max_age_seconds ≤ now - t) :
    cacheGet c now K = (none, { c with entries := E }) := by
  unfold cacheGet
  rw [hent, find?_append_keyfree hfree]
  simp only [List.find?_cons, beq_self_eq_true, cond_true]
  rw [if_neg (not_lt.mpr hstale)]
  rw [show cacheDelete (E ++ [(K, v, t)]) K = E from cacheDelete_append_keyfree hfree]

theorem cacheSet_absent {c : HttpCache} {now : ℤ} {K : String} {v : ResponseObject}
    (h : ∀ e ∈ c.entries, e.1 ≠ K) :
    cacheSet c now K v =
      { c with entries :=
        (if c.entries.length = c.max_len then c.entries.tail else c.entries) ++
          [(K, v, now)] } := by
  obtain ⟨ml, ma, es⟩ := c
  simp only at h
  have hfind : es.find? (fun e => e.1 == K) = none := find?_eq_none_of_keyfree h
  have hany : es.any (fun e => e.1 == K) = false := by
    rw [List.any_eq_false]
    intro e he
    simpa using h e he
  have hanyt : es.tail.any (fun e => e.1 == K) = false := by
    rw [List.any_eq_false]
    intro e he
    simpa using h e (List.mem_of_mem_tail he)
  unfold cacheSet cacheContains
  by_cases hlen : es.length = ml <;>
    simp [hlen, hfind, hany, hanyt]

theorem map_replace_keyfree {E : CacheEntries} {K : String} {v' : ResponseObject}
    {now : ℤ} (h : ∀ e ∈ E, e.1 ≠ K) :
    E.map (fun e => if e.1 == K then (K, v', now) else e) = E := by
  induction E with
  | nil => rfl
  | cons e rest ih =>
      have he : (e.1 == K) = false := by simpa using h e (by simp)
      simp only [List.map_cons, he, Bool.false_eq_true, if_false]
      rw [ih (fun x hx => h x (by simp [hx]))]

theorem map_replace_keyfree_eq {E : CacheEntries} {K : String} {v' : ResponseObject}
    {now : ℤ} (h : ∀ e ∈ E, e.1 ≠ K) :
    E.map (fun e => if e.1 = K then (K, v', now) else e) = E := by
  induction E with
  | nil => rfl
  | cons e rest ih =>
      simp only [List.map_cons, if_neg (h e (by simp))]
      rw [ih (fun x hx => h x (by simp [hx]))]

theorem cacheSet_end (now : ℤ) {c : HttpCache} {K : String} {E : CacheEntries}
    {v : ResponseObject} (v' : ResponseObject) {t : ℤ}
    (hent : c.entries = E ++ [(K, v, t)]) (hfree : ∀ e ∈ E, e.1 ≠ K) :
    ∃ E', cacheSet c now K v' =
        { c with entries := E' ++ [(K, v', now)] } ∧ ∀ e ∈ E', e.1 ≠ K := by
  obtain ⟨ml, ma, es⟩ := c
  simp only at hent
  subst hent
  have hfind : (E ++ [(K, v, t)]).find? (fun e => e.1 == K) = some (K, v, t) := by
    rw [find?_append_keyfree hfree]
    simp
  have hdel : cacheDelete (E ++ [(K, v, t)]) K = E := cacheDelete_append_keyfree hfree
  have hanyE : E.any (fun e => e.1 == K) = false := by
    rw [List.any_eq_false]
    intro e he
    simpa using hfree e he
  have hanyEt : E.tail.any (fun e => e.1 == K) = false := by
    rw [List.any_eq_false]
    intro e he
    simpa using hfree e (List.mem_of_mem_tail he)
  have hmap : (E ++ [(K, v, t)]).map
      (fun e => if e.1 == K then (K, v', now) else e) = E ++ [(K, v', now)] := by
    rw [List.map_append, map_replace_keyfree hfree]
    simp
  unfold cacheSet cacheContains
  by_cases hlen : E.length + 1 = ml
  · by_cases hfresh : now - t < ma
    · refine ⟨E, ?_, hfree⟩
      simp [hlen, hfresh, hfind, hdel, hanyE]
    · refine ⟨E.tail, ?_, fun e he => hfree e (List.mem_of_mem_tail he)⟩
      simp [hlen, hfresh, hfind, hdel, hanyEt]
  · refine ⟨E, ?_, hfree⟩
    have hany : (E ++ [(K, v, t)]).any (fun e => e.1 == K) = true := by
      simp
    simp [hlen, hfind, hany]
    exact map_replace_keyfree_eq hfree

/-! ### http_call cache-path lemmas (for hosts without a rate-limit policy) -/

theorem http_call_get_miss {bot : DataBot} (method url : String)
    (params : Option (List (String × String))) (uc grr : Bool) (now : ℤ)
    (transport : ResponseObject) {c' : HttpCache}
    (hpol : alistLookup bot.rate_limits (netloc url) = none)
    (hm : lowerStr method = "get")
    (hmiss : cacheGet bot.http_cache now (buildCacheKey (normalizeUrl url) params) =
      (none, c')) :
    (http_call bot method url params uc grr now transport).transportCalled = true ∧
    (http_call bot method url params uc grr now transport).result =
      Except.ok (normalizeResult transport grr) ∧
    (http_call bot method url params uc grr now transport).bot.http_cache =
      cacheSet (if uc then c' else bot.http_cache) now
        (buildCacheKey (normalizeUrl url) params) transport ∧
    (http_call bot method url params uc grr now transport).bot.url_rate_limit_history =
      bot.url_rate_limit_history ∧
    (http_call bot method url params uc grr now transport).bot.rate_limits =
      bot.rate_limits := by
  unfold http_call
  dsimp only
  rw [rateLimitStage_no_policy hpol]
  dsimp only
  rw [hm]
  simp only [beq_self_eq_true, Bool.and_true]
  cases uc with
  | false =>
      simp only [Bool.false_eq_true, if_false]
      refine ⟨by trivial, ?_, ?_, ?_, ?_⟩
      · rw [process_http_response_result]
      · rw [show (process_http_response { bot with http_cache := bot.http_cache }
            transport "get" (buildCacheKey (normalizeUrl url) params) grr
            ("Making HTTP " ++ upperStr "get" ++ " request to URL: " ++
              buildCacheKey (normalizeUrl url) params) now).1 = _ from
          process_http_response_bot _ _ _ _ _ _ _]
        rw [if_pos rfl]
      · rw [show (process_http_response { bot with http_cache := bot.http_cache }
            transport "get" (buildCacheKey (normalizeUrl url) params) grr
            ("Making HTTP " ++ upperStr "get" ++ " request to URL: " ++
              buildCacheKey (normalizeUrl url) params) now).1 = _ from
          process_http_response_bot _ _ _ _ _ _ _]
        rw [if_pos rfl]
      · rw [show (process_http_response { bot with http_cache := bot.http_cache }
            transport "get" (buildCacheKey (normalizeUrl url) params) grr
            ("Making HTTP " ++ upperStr "get" ++ " request to URL: " ++
              buildCacheKey (normalizeUrl url) params) now).1 = _ from
          process_http_response_bot _ _ _ _ _ _ _]
        rw [if_pos rfl]
  | true =>
      simp only [if_true, hmiss]
      refine ⟨by trivial, ?_, ?_, ?_, ?_⟩
      · rw [process_http_response_result]
      · rw [show (process_http_response { bot with http_cache := c' }
            transport "get" (buildCacheKey (normalizeUrl url) params) grr
            ("Making HTTP " ++ upperStr "get" ++ " request to URL: " ++
              buildCacheKey (normalizeUrl url) params) now).1 = _ from
          process_http_response_bot _ _ _ _ _ _ _]
        rw [if_pos rfl]
      · rw [show (process_http_response { bot with http_cache := c' }
            transport "get" (buildCacheKey (normalizeUrl url) params) grr
            ("Making HTTP " ++ upperStr "get" ++ " request to URL: " ++
              buildCacheKey (normalizeUrl url) params) now).1 = _ from
          process_http_response_bot _ _ _ _ _ _ _]
        rw [if_pos rfl]
      · rw [show (process_http_response { bot with http_cache := c' }
            transport "get" (buildCacheKey (normalizeUrl url) params) grr
            ("Making HTTP " ++ upperStr "get" ++ " request to URL: " ++
              buildCacheKey (normalizeUrl url) params) now).1 = _ from
          process_http_response_bot _ _ _ _ _ _ _]
        rw [if_pos rfl]

theorem http_call_get_hit {bot : DataBot} (method url : String)
    (params : Option (List (String × String))) (grr : Bool) (now : ℤ)
    (transport v : ResponseObject)
    (hpol : alistLookup bot.rate_limits (netloc url) = none)
    (hm : lowerStr method = "get")
    (hhit : cacheGet bot.http_cache now (buildCacheKey (normalizeUrl url) params) =
      (some v, bot.http_cache)) :
    (http_call bot method url params true grr now transport).transportCalled = false ∧
    (http_call bot method url params true grr now transport).result =
      Except.ok (normalizeResult v grr) ∧
    (http_call bot method url params true grr now transport).bot.http_cache =
      cacheSet bot.http_cache now (buildCacheKey (normalizeUrl url) params) v ∧
    (http_call bot method url params true grr now transport).bot.url_rate_limit_history =
      bot.url_rate_limit_history ∧
    (http_call bot method url params true grr now transport).bot.rate_limits =
      bot.rate_limits := by
  unfold http_call
  dsimp only
  rw [rateLimitStage_no_policy hpol]
  dsimp only
  rw [hm]
  simp only [beq_self_eq_true, Bool.and_true, if_true, hhit]
  refine ⟨by trivial, ?_, ?_, ?_, ?_⟩
  · rw [process_http_response_result]
  · rw [show (process_http_response { bot with http_cache := bot.http_cache }
        v "get" (buildCacheKey (normalizeUrl url) params) grr
        ("Retrieving cached HTTP GET response (" ++
          buildCacheKey (normalizeUrl url) params ++ ")") now).1 = _ from
      process_http_response_bot _ _ _ _ _ _ _]
    rw [if_pos rfl]
  · rw [show (process_http_response { bot with http_cache := bot.http_cache }
        v "get" (buildCacheKey (normalizeUrl url) params) grr
        ("Retrieving cached HTTP GET response (" ++
          buildCacheKey (normalizeUrl url) params ++ ")") now).1 = _ from
      process_http_response_bot _ _ _ _ _ _ _]
    rw [if_pos rfl]
  · rw [show (process_http_response { bot with http_cache := bot.http_cache }
        v "get" (buildCacheKey (normalizeUrl url) params) grr
        ("Retrieving cached HTTP GET response (" ++
          buildCacheKey (normalizeUrl url) params ++ ")") now).1 = _ from
      process_http_response_bot _ _ _ _ _ _ _]
    rw [if_pos rfl]

/-- C5: a call whose (lower-cased) method is not GET never consults the
response cache — no lookup happens regardless of `use_cache` — and never
populates it: the cache is unchanged by the whole call. -/
theorem C5_non_get_never_touches_cache (bot : DataBot) (method url : String)
    (params : Option (List (String × String))) (uc grr : Bool) (now : ℤ)
    (transport : ResponseObject)
    (hm : lowerStr method ≠ "get") :
    (http_call bot method url params uc grr now transport).cacheConsulted = false ∧
    (http_call bot method url params uc grr now transport).bot.http_cache =
      bot.http_cache := by
  have hb : (lowerStr method == "get") = false := by
    simpa using hm
  unfold http_call
  dsimp only
  split
  · exact ⟨rfl, rfl⟩
  · simp only [hb, Bool.and_false, Bool.false_eq_true, if_false]
    constructor
    · trivial
    · rw [show (process_http_response
          { bot with
            url_rate_limit_history := (rateLimitStage bot.rate_limits
              bot.url_rate_limit_history (netloc url) now).1,
            http_cache := bot.http_cache }
          transport (lowerStr method) (buildCacheKey (normalizeUrl url) params) grr
          ("Making HTTP " ++ upperStr (lowerStr method) ++ " request to URL: " ++
            buildCacheKey (normalizeUrl url) params) now).1 = _ from
        process_http_response_bot _ _ _ _ _ _ _]
      rw [if_neg hm]

/-- Witness for C5: a POST call leaves the cache untouched and unread. -/
theorem C5_non_get_never_touches_cache_witness :
    (http_call sampleBotFree "post" "http://x.com/a" none true false 5
      sampleResponse).cacheConsulted = false ∧
    (http_call sampleBotFree "post" "http://x.com/a" none true false 5
      sampleResponse).bot.http_cache = sampleBotFree.http_cache :=
  C5_non_get_never_touches_cache sampleBotFree "post" "http://x.com/a" none true
    false 5 sampleResponse (by decide)

/-- A bot with the source's real policy table (`ipinfo.io`: 1 call per 30
seconds), no call history and an empty cache. -/
def sampleBotIpinfo : DataBot :=
  { rate_limits := default_rate_limits,
    url_rate_limit_history := [],
    http_cache := sampleCache }

/-- Counterexample to C4 as stated (over every GET with `use_cache = True`):
on the quota-1 host `ipinfo.io`, a GET at time 0 stores its response, and the
entry is still fresh at time 10 — well within the 60-second age limit — yet
the second identical call at time 10 fails with `HTTPRateLimit(20)`, raised
before the cache is even consulted, instead of returning the stored response
with no transport call. -/
theorem C4_counterexample_rate_limited_host :
    (http_call sampleBotIpinfo "get" "http://ipinfo.io/json" none true false 0
      sampleResponse).transportCalled = true ∧
    (cacheGet (http_call sampleBotIpinfo "get" "http://ipinfo.io/json" none true
        false 0 sampleResponse).bot.http_cache 10
      (buildCacheKey (normalizeUrl "http://ipinfo.io/json") none)).1 =
      some sampleResponse ∧
    (http_call (http_call sampleBotIpinfo "get" "http://ipinfo.io/json" none true
        false 0 sampleResponse).bot "get" "http://ipinfo.io/json" none true false
      10 sampleResponse).result = Except.error (HttpError.rateLimit 20) ∧
    (http_call (http_call sampleBotIpinfo "get" "http://ipinfo.io/json" none true
        false 0 sampleResponse).bot "get" "http://ipinfo.io/json" none true false
      10 sampleResponse).cacheConsulted = false :=
  ⟨by decide, by decide, by decide, by decide⟩

/-- C4 amended: for a cached-eligible GET (use_cache, GET method) that passes
the rate-limit stage — here: no rate-limit policy for the host, since for a
policy host a repeat call inside the window fails with `HTTPRateLimit` before
the cache lookup — on a key absent from the cache: the first call issues a
transport request and stores the response; a second identical call within the
age limit issues no transport request and returns the same result (so the
pair issues exactly one transport call); and once the age limit has elapsed
since the store, the lookup finds nothing and a call issues a transport
request again. -/
theorem C4_cache_round_trip (bot : DataBot) (method url : String)
    (params : Option (List (String × String))) (grr : Bool)
    (t0 t1 : ℤ) (tr1 tr2 : ResponseObject)
    (hpol : alistLookup bot.rate_limits (netloc url) = none)
    (hm : lowerStr method = "get")
    (hfree : ∀ e ∈ bot.http_cache.entries,
      e.1 ≠ buildCacheKey (normalizeUrl url) params)
    (hfresh : t1 - t0 < bot.http_cache.max_age_seconds) :
    (http_call bot method url params true grr t0 tr1).transportCalled = true ∧
    (http_call (http_call bot method url params true grr t0 tr1).bot method url
      params true grr t1 tr2).transportCalled = false ∧
    (http_call (http_call bot method url params true grr t0 tr1).bot method url
        params true grr t1 tr2).result =
      (http_call bot method url params true grr t0 tr1).result ∧
    (∀ (t2 : ℤ) (tr3 : ResponseObject),
      bot.http_cache.max_age_seconds ≤ t2 - t0 →
      (cacheGet (http_call bot method url params true grr t0 tr1).bot.http_cache t2
        (buildCacheKey (normalizeUrl url) params)).1 = none ∧
      (http_call (http_call bot method url params true grr t0 tr1).bot method url
        params true grr t2 tr3).transportCalled = true) := by
  obtain ⟨htr1, hres1, hc1, hh1, hrl1⟩ := http_call_get_miss method url params true
    grr t0 tr1 hpol hm (cacheGet_absent hfree)
  rw [if_pos rfl] at hc1
  have hB : ∀ e ∈ (if bot.http_cache.entries.length = bot.http_cache.max_len
      then bot.http_cache.entries.tail else bot.http_cache.entries),
      e.1 ≠ buildCacheKey (normalizeUrl url) params := by
    split
    · exact fun e he => hfree e (List.mem_of_mem_tail he)
    · exact hfree
  have hent1 : (http_call bot method url params true grr t0 tr1).bot.http_cache =
      { bot.http_cache with entries :=
        (if bot.http_cache.entries.length = bot.http_cache.max_len
          then bot.http_cache.entries.tail else bot.http_cache.entries) ++
        [(buildCacheKey (normalizeUrl url) params, tr1, t0)] } := by
    rw [hc1, cacheSet_absent hfree]
  have hpol2 : alistLookup (http_call bot method url params true grr t0
      tr1).bot.rate_limits (netloc url) = none := by
    rw [hrl1]
    exact hpol
  have hhit : cacheGet (http_call bot method url params true grr t0 tr1).bot.http_cache
      t1 (buildCacheKey (normalizeUrl url) params) =
      (some tr1, (http_call bot method url params true grr t0 tr1).bot.http_cache) := by
    apply cacheGet_end_fresh (if bot.http_cache.entries.length =
      bot.http_cache.max_len then bot.http_cache.entries.tail else
      bot.http_cache.entries)
    · rw [hent1]
    · exact hB
    · rw [hent1]
      exact hfresh
  obtain ⟨htr2, hres2, _, _, _⟩ := http_call_get_hit method url params grr t1 tr2
    tr1 hpol2 hm hhit
  refine ⟨htr1, htr2, ?_, ?_⟩
  · rw [hres2, hres1]
  · intro t2 tr3 hstale
    have hget : cacheGet (http_call bot method url params true grr t0
        tr1).bot.http_cache t2 (buildCacheKey (normalizeUrl url) params) =
        (none, { (http_call bot method url params true grr t0 tr1).bot.http_cache with
          entries := (if bot.http_cache.entries.length = bot.http_cache.max_len
            then bot.http_cache.entries.tail else bot.http_cache.entries) }) := by
      apply cacheGet_end_stale (if bot.http_cache.entries.length =
        bot.http_cache.max_len then bot.http_cache.entries.tail else
        bot.http_cache.entries)
      · rw [hent1]
      · exact hB
      · rw [hent1]
        exact hstale
    refine ⟨by rw [hget], ?_⟩
    exact (http_call_get_miss method url params true grr t2 tr3 hpol2 hm hget).1

/-- Witness for C4: on an empty cache (age limit 60), a GET at time 0, a hit
at time 30, and a miss again at time 60. -/
theorem C4_cache_round_trip_witness :
    (http_call sampleBotFree "get" "http://x.com/a" none true false 0
      sampleResponse).transportCalled = true ∧
    (http_call (http_call sampleBotFree "get" "http://x.com/a" none true false 0
      sampleResponse).bot "get" "http://x.com/a" none true false 30
      sampleBadResponse).transportCalled = false ∧
    (cacheGet (http_call sampleBotFree "get" "http://x.com/a" none true false 0
      sampleResponse).bot.http_cache 60
      (buildCacheKey (normalizeUrl "http://x.com/a") none)).1 = none := by
  have h := C4_cache_round_trip sampleBotFree "get" "http://x.com/a" none false 0
    30 sampleResponse sampleBadResponse (by decide) (by decide) (by decide)
    (by decide)
  exact ⟨h.1, h.2.1, (h.2.2.2 60 sampleBadResponse (by decide)).1⟩

/-- C10: response processing stores every GET response under its cache key —
`process_http_response` does not see `use_cache`, so a GET through `http_call`
with `use_cache = False` still stores; a cache hit re-inserts the entry with
the current time as its new insertion timestamp, so an entry hit at `t1`
within the age limit `A` of its store at `t0` is still served without a
transport call at a time `t2` with `t2 - t1 < A` even though `A ≤ t2 - t0`;
and response processing writes no facade state other than the cache. -/
theorem C10_get_store_and_hit_refresh (bot : DataBot) (method url : String)
    (params : Option (List (String × String))) (grr : Bool)
    (t0 t1 t2 : ℤ) (tr1 tr2 tr3 : ResponseObject)
    (hpol : alistLookup bot.rate_limits (netloc url) = none)
    (hm : lowerStr method = "get")
    (hfree : ∀ e ∈ bot.http_cache.entries,
      e.1 ≠ buildCacheKey (normalizeUrl url) params)
    (h01 : t1 - t0 < bot.http_cache.max_age_seconds)
    (h12 : t2 - t1 < bot.http_cache.max_age_seconds)
    (h02 : bot.http_cache.max_age_seconds ≤ t2 - t0) :
    (∀ (b : DataBot) (r : ResponseObject) (m k : String) (g : Bool)
        (log : String) (n : ℤ),
      (process_http_response b r m k g log n).1.url_rate_limit_history =
        b.url_rate_limit_history ∧
      (process_http_response b r m k g log n).1.rate_limits = b.rate_limits ∧
      (m = "get" →
        (process_http_response b r m k g log n).1.http_cache =
          cacheSet b.http_cache n k r)) ∧
    ((http_call bot method url params false grr t0 tr1).transportCalled = true ∧
      (http_call bot method url params false grr t0 tr1).bot.http_cache =
        cacheSet bot.http_cache t0 (buildCacheKey (normalizeUrl url) params) tr1) ∧
    (∃ E', (http_call (http_call bot method url params true grr t0 tr1).bot method
        url params true grr t1 tr2).bot.http_cache.entries =
          E' ++ [(buildCacheKey (normalizeUrl url) params, tr1, t1)] ∧
      (http_call (http_call (http_call bot method url params true grr t0 tr1).bot
        method url params true grr t1 tr2).bot method url params true grr t2
        tr3).transportCalled = false) := by
  refine ⟨?_, ?_, ?_⟩
  · intro b r m k g log n
    have hb := process_http_response_bot b r m k g log n
    by_cases hg : m = "get"
    · rw [if_pos hg] at hb
      rw [hb]
      exact ⟨rfl, rfl, fun _ => rfl⟩
    · rw [if_neg hg] at hb
      rw [hb]
      exact ⟨rfl, rfl, fun h => absurd h hg⟩
  · obtain ⟨htr, _, hc, _, _⟩ := http_call_get_miss method url params false grr t0
      tr1 hpol hm (cacheGet_absent hfree)
    rw [if_neg (by simp)] at hc
    exact ⟨htr, hc⟩
  · obtain ⟨_, _, hc1, _, hrl1⟩ := http_call_get_miss method url params true grr t0
      tr1 hpol hm (cacheGet_absent hfree)
    rw [if_pos rfl] at hc1
    have hB : ∀ e ∈ (if bot.http_cache.entries.length = bot.http_cache.max_len
        then bot.http_cache.entries.tail else bot.http_cache.entries),
        e.1 ≠ buildCacheKey (normalizeUrl url) params := by
      split
      · exact fun e he => hfree e (List.mem_of_mem_tail he)
      · exact hfree
    have hent1 : (http_call bot method url params true grr t0 tr1).bot.http_cache =
        { bot.http_cache with entries :=
          (if bot.http_cache.entries.length = bot.http_cache.max_len
            then bot.http_cache.entries.tail else bot.http_cache.entries) ++
          [(buildCacheKey (normalizeUrl url) params, tr1, t0)] } := by
      rw [hc1, cacheSet_absent hfree]
    have hpol2 : alistLookup (http_call bot method url params true grr t0
        tr1).bot.rate_limits (netloc url) = none := by
      rw [hrl1]
      exact hpol
    have hhit1 : cacheGet (http_call bot method url params true grr t0
        tr1).bot.http_cache t1 (buildCacheKey (normalizeUrl url) params) =
        (some tr1, (http_call bot method url params true grr t0 tr1).bot.http_cache) := by
      apply cacheGet_end_fresh (if bot.http_cache.entries.length =
        bot.http_cache.max_len then bot.http_cache.entries.tail else
        bot.http_cache.entries)
      · rw [hent1]
      · exact hB
      · rw [hent1]
        exact h01
    obtain ⟨_, _, hc2, _, hrl2⟩ := http_call_get_hit method url params grr t1 tr2
      tr1 hpol2 hm hhit1
    obtain ⟨E', hsetE, hfreeE⟩ := cacheSet_end t1 tr1
      (show (http_call bot method url params true grr t0 tr1).bot.http_cache.entries =
        (if bot.http_cache.entries.length = bot.http_cache.max_len
          then bot.http_cache.entries.tail else bot.http_cache.entries) ++
        [(buildCacheKey (normalizeUrl url) params, tr1, t0)] by rw [hent1]) hB
    have hent2 : (http_call (http_call bot method url params true grr t0 tr1).bot
        method url params true grr t1 tr2).bot.http_cache =
        { (http_call bot method url params true grr t0 tr1).bot.http_cache with
          entries := E' ++ [(buildCacheKey (normalizeUrl url) params, tr1, t1)] } := by
      rw [hc2, hsetE]
    refine ⟨E', by rw [hent2], ?_⟩
    have hpol3 : alistLookup (http_call (http_call bot method url params true grr t0
        tr1).bot method url params true grr t1 tr2).bot.rate_limits (netloc url) =
        none := by
      rw [hrl2]
      exact hpol2
    have hage : (http_call bot method url params true grr t0
        tr1).bot.http_cache.max_age_seconds = bot.http_cache.max_age_seconds := by
      rw [hent1]
    have hhit2 : cacheGet (http_call (http_call bot method url params true grr t0
        tr1).bot method url params true grr t1 tr2).bot.http_cache t2
        (buildCacheKey (normalizeUrl url) params) =
        (some tr1, (http_call (http_call bot method url params true grr t0 tr1).bot
          method url params true grr t1 tr2).bot.http_cache) := by
      apply cacheGet_end_fresh E'
      · rw [hent2]
      · exact hfreeE
      · rw [hent2]
        dsimp only
        rw [hage]
        exact h12
    exact (http_call_get_hit method url params grr t2 tr3 tr1 hpol3 hm hhit2).1

/-- Witness for C10: age limit 60; store at 0, hit at 50 (re-inserted at 50),
hit again at 100 — more than one age limit after the original transport
call — still without a transport call; and a `use_cache = False` GET stores. -/
theorem C10_get_store_and_hit_refresh_witness :
    ((http_call sampleBotFree "get" "http://x.com/a" none false false 0
      sampleResponse).transportCalled = true ∧
    (http_call sampleBotFree "get" "http://x.com/a" none false false 0
      sampleResponse).bot.http_cache =
      cacheSet sampleBotFree.http_cache 0
        (buildCacheKey (normalizeUrl "http://x.com/a") none) sampleResponse) ∧
    (http_call (http_call (http_call sampleBotFree "get" "http://x.com/a" none true
      false 0 sampleResponse).bot "get" "http://x.com/a" none true false 50
      sampleBadResponse).bot "get" "http://x.com/a" none true false 100
      sampleBadResponse).transportCalled = false := by
  have h := C10_get_store_and_hit_refresh sampleBotFree "get" "http://x.com/a" none
    false 0 50 100 sampleResponse sampleBadResponse sampleBadResponse (by decide)
    (by decide) (by decide) (by decide) (by decide) (by decide)
  exact ⟨h.2.1, h.2.2.choose_spec.2⟩

/-- C6: with `get_raw_response = False`, a response whose body fails JSON
parsing produces the empty mapping with only the injected `status_code` field
taken from the response object, and an error log entry recording the failure;
`process_http_response` is total, so the decode failure never reaches the
caller. -/
theorem C6_decode_failure_swallowed (bot : DataBot) (r : ResponseObject)
    (method cache_key log_message : String) (now : ℤ)
    (hjson : r.json = none) :
    (process_http_response bot r method cache_key false log_message now).2.1 =
      NormalizedResponse.mapping [("status_code", JsonValue.num r.status)] ∧
    (upperStr method ++ " request to URL: " ++ cache_key ++ " failed") ∈
      (process_http_response bot r method cache_key false log_message now).2.2 := by
  unfold process_http_response
  dsimp only
  rw [hjson]
  exact ⟨rfl, by simp⟩

/-- Witness for C6: a 500 response with an unparsable body becomes
`{status_code: 500}` plus a logged failure. -/
theorem C6_decode_failure_swallowed_witness :
    (process_http_response sampleBotFree sampleBadResponse "get" "k" false "l"
      0).2.1 = NormalizedResponse.mapping [("status_code", JsonValue.num 500)] ∧
    (upperStr "get" ++ " request to URL: " ++ "k" ++ " failed") ∈
      (process_http_response sampleBotFree sampleBadResponse "get" "k" false "l"
        0).2.2 :=
  C6_decode_failure_swallowed sampleBotFree sampleBadResponse "get" "k" "l" 0
    (by decide)

/-! ### C2: the cache key and parameter order -/

/-- Kernel-reducible lexicographic comparison on key strings, used only to
express the claim's "sorted" wording. -/
def charListLe : List Char → List Char → Bool
  | [], _ => true
  | _ :: _, [] => false
  | a :: as, b :: bs => if a = b then charListLe as bs else decide (a < b)

/-- Insert a pair into a list sorted by key. -/
def insertSorted (p : String × String) :
    List (String × String) → List (String × String)
  | [] => [p]
  | q :: rest =>
      if charListLe p.1.data q.1.data then p :: q :: rest
      else q :: insertSorted p rest

/-- Insertion sort by key. -/
def sortPairs : List (String × String) → List (String × String)
  | [] => []
  | p :: rest => insertSorted p (sortPairs rest)

/-- The claim's key description (written from the claim's words, for
comparison with `buildCacheKey`): the lower-cased URL with the *sorted*,
URL-encoded query parameters appended. -/
def specCacheKeySorted (url : String) (ps : List (String × String)) : String :=
  lowerStr url ++ "?" ++ urlencode (sortPairs ps)

/-- Counterexample to C2: the code's `urllib.parse.urlencode` keeps the
mapping's iteration order, so the same key-value pairs in a different order
produce a different cache key, and the key differs from the claim's sorted
form. -/
theorem C2_counterexample_unsorted_params :
    List.Perm ([("b", "2"), ("a", "1")] : List (String × String))
      [("a", "1"), ("b", "2")] ∧
    buildCacheKey (normalizeUrl "http://x.com/a") (some [("b", "2"), ("a", "1")]) ≠
      buildCacheKey (normalizeUrl "http://x.com/a") (some [("a", "1"), ("b", "2")]) ∧
    buildCacheKey (normalizeUrl "http://x.com/a") (some [("b", "2"), ("a", "1")]) ≠
      specCacheKeySorted (normalizeUrl "http://x.com/a") [("b", "2"), ("a", "1")] :=
  ⟨by decide, by decide, by decide⟩

/-- One `k=v` encoded pair per mapping entry, in iteration order (written from
the amended claim's words). -/
def encodePairsOrdered : List (String × String) → List String
  | [] => []
  | (k, v) :: rest => (quote_plus k ++ "=" ++ quote_plus v) :: encodePairsOrdered rest

/-- Join with a separator. -/
def joinSep (sep : String) : List String → String
  | [] => ""
  | [x] => x
  | x :: rest => x ++ sep ++ joinSep sep rest

theorem urlencode_eq_ordered (ps : List (String × String)) :
    urlencode ps = joinSep "&" (encodePairsOrdered ps) := by
  induction ps with
  | nil => rfl
  | cons p rest ih =>
      obtain ⟨k, v⟩ := p
      cases rest with
      | nil => rfl
      | cons q rest' =>
          simp only [urlencode, List.map_cons, joinAmp, encodePairsOrdered,
            joinSep] at *
          rw [← ih]

theorem http_call_get_nocache {bot : DataBot} (method url : String)
    (params : Option (List (String × String))) (grr : Bool) (now : ℤ)
    (transport : ResponseObject)
    (hpol : alistLookup bot.rate_limits (netloc url) = none)
    (hm : lowerStr method = "get") :
    (http_call bot method url params false grr now transport).bot.http_cache =
      cacheSet bot.http_cache now (buildCacheKey (normalizeUrl url) params)
        transport := by
  unfold http_call
  dsimp only
  rw [rateLimitStage_no_policy hpol]
  dsimp only
  rw [hm]
  simp only [beq_self_eq_true, Bool.and_true, Bool.false_and, Bool.false_eq_true,
    if_false]
  rw [show (process_http_response
      { bot with
        url_rate_limit_history := bot.url_rate_limit_history,
        http_cache := bot.http_cache }
      transport "get" (buildCacheKey (normalizeUrl url) params) grr
      ("Making HTTP " ++ upperStr "get" ++ " request to URL: " ++
        buildCacheKey (normalizeUrl url) params) now).1 = _ from
    process_http_response_bot _ _ _ _ _ _ _]
  rw [if_pos rfl]

/-- C2 amended: the cache key used for lookup and storage is the lower-cased
normalized URL with the URL-encoded query parameters appended after a `?` in
the params mapping's own iteration order — no sorting — so equal mappings in
different orders can produce different keys.  The last clause shows the GET
storage path uses exactly this key. -/
theorem C2_amended_cache_key_ordered (url : String) (ps : List (String × String))
    (hps : ps ≠ []) :
    buildCacheKey url (some ps) =
      lowerStr url ++ "?" ++ joinSep "&" (encodePairsOrdered ps) ∧
    buildCacheKey url none = lowerStr url ∧
    (∀ (bot : DataBot) (method : String) (grr : Bool) (now : ℤ)
        (transport : ResponseObject),
      alistLookup bot.rate_limits (netloc url) = none →
      lowerStr method = "get" →
      (http_call bot method url (some ps) false grr now transport).bot.http_cache =
        cacheSet bot.http_cache now (buildCacheKey (normalizeUrl url) (some ps))
          transport) := by
  refine ⟨?_, rfl, ?_⟩
  · cases ps with
    | nil => exact absurd rfl hps
    | cons p rest =>
        rw [show buildCacheKey url (some (p :: rest)) =
          lowerStr url ++ "?" ++ urlencode (p :: rest) from rfl]
        rw [urlencode_eq_ordered]
  · intro bot method grr now transport hpol hm
    exact http_call_get_nocache method url (some ps) grr now transport hpol hm

/-- Witness for C2 amended: the concrete key for two parameters in the given
order. -/
theorem C2_amended_cache_key_ordered_witness :
    buildCacheKey "http://x.com/a" (some [("b", "2"), ("a", "1")]) =
      lowerStr "http://x.com/a" ++ "?" ++
        joinSep "&" (encodePairsOrdered [("b", "2"), ("a", "1")]) :=
  (C2_amended_cache_key_ordered "http://x.com/a" [("b", "2"), ("a", "1")]
    (by decide)).1

/-! ### C9: the plugin loader's registration rule -/

/-- The claim's registration rule (written from the claim's words, for
comparison): only *callable* top-level bindings passing the name filter. -/
def specRegisteredCallables (moduleDict : List (String × Binding)) :
    List (String × Binding) :=
  moduleDict.filter (fun p =>
    p.2.callable && !(startsWithStr p.1 "__") && p.1 != "commands")

/-- Counterexample to C9: `load_plugins` never checks callability — a module
dict holding only the non-callable binding `random` (an imported module
object) still gets it registered, diverging from the claim's rule. -/
theorem C9_counterexample_non_callable_registered :
    load_plugins_registered [("random", Binding.mk false 0)] =
      [("random", Binding.mk false 0)] ∧
    (Binding.mk false 0).callable = false ∧
    load_plugins_registered [("random", Binding.mk false 0)] ≠
      specRegisteredCallables [("random", Binding.mk false 0)] :=
  ⟨by decide, rfl, by decide⟩

/-- C9 amended: `load_plugins` imports every `.py` file of the plugins
directory except `__init__.py` (as `plugins.<name>`), and registers every
top-level binding — callable or not — whose name does not start with `__` and
is not `commands`. -/
theorem C9_amended_name_filter_only (files : List String)
    (d : List (String × Binding)) (p : String × Binding) (m : String) :
    (p ∈ load_plugins_registered d ↔
      p ∈ d ∧ ¬startsWithStr p.1 "__" ∧ p.1 ≠ "commands") ∧
    (m ∈ plugin_module_names files ↔
      ∃ f, f ∈ files ∧ ¬endsWithStr f "__init__.py" ∧
        m = "plugins." ++ dropLast3 (basename f)) := by
  constructor
  · rw [load_plugins_registered, List.mem_filter]
    simp [and_assoc]
  · rw [plugin_module_names, List.mem_map]
    constructor
    · rintro ⟨f, hf, rfl⟩
      rw [List.mem_filter] at hf
      exact ⟨f, hf.1, by simpa using hf.2, rfl⟩
    · rintro ⟨f, hf, hni, rfl⟩
      exact ⟨f, List.mem_filter.mpr ⟨hf, by simpa using hni⟩, rfl⟩

end TechSupportBot
